import Mathlib

/-!
Verification development for the session-log tagging toolkit.

Text is modelled as `List Char` (the repository reads whole files as Python
strings and processes them character-wise after `.split('\n')` /
`.lower()` / `.strip()`).  Python regular-expression searches are embedded
as executable boolean matchers over the lowered character list; floating
point confidences `score / total` are embedded as exact rationals (all
denominators that occur are small, so every comparison against the
thresholds 0.05 and 0.1 agrees with the IEEE-double comparison performed
by the scripts).  Python's stable `sorted` is embedded as
`List.insertionSort` with a non-strict comparison, which is also stable.
-/

/-- Whitespace in the sense of Python's `str.strip` / regex `\s` (ASCII). -/
def isPySpace (c : Char) : Bool :=
  c = ' ' || c = '\t' || c = '\n' || c = '\r' || c = '\x0b' || c = '\x0c'

/-- Word character in the sense of the regex class `\w` (ASCII). -/
def isWordChar (c : Char) : Bool :=
  c.isAlphanum || c = '_'

/-- Python `str.strip()`: remove leading and trailing whitespace. -/
def pyStrip (cs : List Char) : List Char :=
  ((cs.dropWhile isPySpace).reverse.dropWhile isPySpace).reverse

/-- Python `str.rstrip()`: remove trailing whitespace. -/
def pyRstrip (cs : List Char) : List Char :=
  (cs.reverse.dropWhile isPySpace).reverse

/-- Python `content.split('\n')`. -/
def splitNl : List Char → List (List Char)
  | [] => [[]]
  | c :: t =>
    match splitNl t with
    | [] => [[c]]
    | l :: ls => if c = '\n' then [] :: l :: ls else (c :: l) :: ls

/-- Python substring test `n in hay`. -/
def containsSub (n : List Char) : List Char → Bool
  | [] => n.isEmpty
  | c :: t => n.isPrefixOf (c :: t) || containsSub n t

/-- Search for an occurrence of `n` whose remainder satisfies `test`
(used to embed regexes of the form `n` followed by a context condition). -/
def occSubThen (n : List Char) (test : List Char → Bool) : List Char → Bool
  | [] => n.isEmpty && test []
  | c :: t => (n.isPrefixOf (c :: t) && test ((c :: t).drop n.length)) || occSubThen n test t

/-- A word boundary sits between the previous character and the head of `l`
when `l` starts with a non-word character or is empty (the previous
character being a word character). -/
def boundaryHead (l : List Char) : Bool :=
  match l with
  | [] => true
  | c :: _ => !isWordChar c

/-- Word boundary before the current position, given the previous character. -/
def prevBoundary : Option Char → Bool
  | none => true
  | some c => !isWordChar c

/-- Regex `n\b` for a needle ending in a word character: occurrence of `n`
followed by a word boundary. -/
def searchFB (n : List Char) (hay : List Char) : Bool :=
  occSubThen n boundaryHead hay

/-- Scanner for `\bn\b`: word boundary on both sides. -/
def occBB (n : List Char) : Option Char → List Char → Bool
  | _, [] => false
  | prev, c :: t =>
    (prevBoundary prev && n.isPrefixOf (c :: t) && boundaryHead ((c :: t).drop n.length))
      || occBB n (some c) t

/-- Regex `\bn\b` over a haystack. -/
def searchBB (n : List Char) (hay : List Char) : Bool :=
  occBB n none hay

/-- Scanner for `\b(n₁|n₂|…)`: word boundary before one of the needles. -/
def occPB (ns : List (List Char)) : Option Char → List Char → Bool
  | _, [] => false
  | prev, c :: t =>
    (prevBoundary prev && ns.any (fun n => n.isPrefixOf (c :: t)))
      || occPB ns (some c) t

/-- Regex `\b(n₁|n₂|…)` over a haystack. -/
def searchPB (ns : List (List Char)) (hay : List Char) : Bool :=
  occPB ns none hay

/-- Head-of-list is a decimal digit (embeds a trailing `\d+`). -/
def headDigit : List Char → Bool
  | d :: _ => d.isDigit
  | [] => false

/-- Embeds `\s+\d+` as a trailing condition: at least one whitespace
character, then (after the maximal whitespace run) a digit. -/
def spacesThenDigit : List Char → Bool
  | [] => false
  | c :: t => isPySpace c && headDigit ((c :: t).dropWhile isPySpace)

/-- Scanner for `\b(alt₁|alt₂|…)` reachable through `.*` (which cannot cross
a newline): advance while checking the alternatives at a word boundary,
stopping at a newline. -/
def altScanPB (alts : List (List Char)) : Option Char → List Char → Bool
  | _, [] => false
  | prev, c :: t =>
    (prevBoundary prev && alts.any (fun n => n.isPrefixOf (c :: t)))
      || (if c = '\n' then false else altScanPB alts (some c) t)

/-- Alternatives of the regex `\bbars?\b.*\b(OHLC|market|price)`, lowered. -/
def barsAlts : List (List Char) :=
  ["ohlc".data, "market".data, "price".data]

/-- Continuation of the `bars?` regex after the token: a word boundary, then
`.*\b(OHLC|market|price)` on the rest of the line. -/
def barsTail (lastC : Char) (r : List Char) : Bool :=
  boundaryHead r && altScanPB barsAlts (some lastC) r

/-- Scanner for the regex `\bbars?\b.*\b(OHLC|market|price)`. -/
def barsScan : Option Char → List Char → Bool
  | _, [] => false
  | prev, c :: t =>
    (prevBoundary prev && "bar".data.isPrefixOf (c :: t) &&
      (barsTail 'r' ((c :: t).drop 3) ||
        (match (c :: t).drop 3 with
         | 's' :: r => barsTail 's' r
         | _ => false)))
      || barsScan (some c) t

/-- Regex `\bbars?\b.*\b(OHLC|market|price)` over a haystack. -/
def searchBars (hay : List Char) : Bool :=
  barsScan none hay

/-- Scanner for a plain substring reachable through `.*` (no newline). -/
def dotScanSub (n : List Char) : List Char → Bool
  | [] => n.isEmpty
  | c :: t => n.isPrefixOf (c :: t) || (if c = '\n' then false else dotScanSub n t)

/-- Regex `a.*b` (no boundaries, `.` does not match a newline). -/
def subThenLineSub (a b : List Char) (hay : List Char) : Bool :=
  occSubThen a (dotScanSub b) hay

/-- Substring search for either of two literals (embeds `x[-_]y`). -/
def sub2 (a b : List Char) (hay : List Char) : Bool :=
  containsSub a hay || containsSub b hay

/-- Substring search for one of three literals (embeds `lance[-_]?db`). -/
def sub3 (a b c : List Char) (hay : List Char) : Bool :=
  containsSub a hay || containsSub b hay || containsSub c hay

/-- Lower-case a character list like Python `str.lower()` (ASCII). -/
def lowerText (cs : List Char) : List Char :=
  cs.map Char.toLower

/-- Exact rational value of the Python float division `a / b` of two
counts (`Rat.divInt` is used rather than `/` so that the kernel can
evaluate concrete instances). -/
def ratDiv (a b : ℕ) : ℚ :=
  Rat.divInt a b

/-- Definition of a project context for tagging
(`context_tagger.py`, `ProjectContext`). -/
structure ProjectContext where
  tag : String
  keywords : List String
  patterns : List (List Char → Bool)
  description : String

namespace ContextTagger

/-- The five project contexts of `ContextTagger.__init__`
(`starter-files/src/processing/context_tagger.py`, lines 22-141).  Keywords
are kept verbatim; each regex pattern is embedded as a boolean matcher over
the lowered text (the scripts search `text_lower` with `re.IGNORECASE`, so
all literals are lowered). -/
def project_contexts : List ProjectContext :=
  [ { tag := "NinjaTrader"
    , keywords :=
        [ "ninjatrader", "ninja trader", "nt", "order-manager"
        , "trading strategy", "signal approval", "position tracking"
        , "entry signal", "exit signal", "stop loss", "take profit"
        , "pattern matching", "order flow", "market data"
        , "OrderManagement.cs", "TraditionalStrategies.cs"
        , "SignalFeatures.cs", "MainStrategy.cs", "CurvesStrategy"
        , "deregisterposition", "registerposition", "pnl", "bars"
        , "MGC", "gold", "futures", "trading", "agentic memory"
        , "risk agent", "ME service", "MI service", "RF service" ]
    , patterns :=
        [ sub2 "order-manager".data "order_manager".data
        , sub2 "ninja-trader".data "ninja_trader".data
        , sub2 "trading-system".data "trading_system".data
        , sub2 "signal-approval".data "signal_approval".data
        , sub2 "position-tracking".data "position_tracking".data
        , searchFB ".cs".data
        , searchPB [ "me-service".data, "me_service".data, "mi-service".data
                   , "mi_service".data, "rf-service".data, "rf_service".data ]
        , occSubThen "$".data headDigit
        , searchBB "pnl".data
        , searchBB "mgc".data
        , searchBars ]
    , description := "NinjaTrader trading platform and related services" }
  , { tag := "FluidJournal"
    , keywords :=
        [ "fluid journal", "fluidjournal", "production-curves"
        , "agentic memory", "storage agent", "risk service"
        , "langchain", "vector store", "lancedb", "graduation"
        , "feature graduation", "range-based", "gaussian process"
        , "similarity matching", "pattern clustering", "GP"
        , "model training", "RF training", "pytorch", "machine learning"
        , "feature importance", "vectorbt", "backtesting" ]
    , patterns :=
        [ sub2 "production-curves".data "production_curves".data
        , sub2 "fluid-journal".data "fluid_journal".data
        , sub2 "agentic-memory".data "agentic_memory".data
        , sub2 "storage-agent".data "storage_agent".data
        , sub2 "risk-service".data "risk_service".data
        , sub2 "vector-store".data "vector_store".data
        , sub3 "lancedb".data "lance-db".data "lance_db".data
        , searchFB ".py".data
        , searchFB ".js".data
        , containsSub "langchain".data
        , sub2 "gaussian-process".data "gaussian_process".data
        , sub2 "feature-graduation".data "feature_graduation".data ]
    , description := "AI/ML research and agentic memory system" }
  , { tag := "Cohere"
    , keywords :=
        [ "cohere", "auto-regen", "website", "github pages"
        , "session logs", "claude memory", "content generation"
        , "static site", "html generator", "jinja2", "markdown"
        , "repository", "workflow", "automation" ]
    , patterns :=
        [ sub2 "auto-regen".data "auto_regen".data
        , sub2 "github-pages".data "github_pages".data
        , sub2 "session-logs".data "session_logs".data
        , sub2 "claude-memory".data "claude_memory".data
        , searchFB ".html".data
        , searchFB ".md".data
        , sub2 "content-generation".data "content_generation".data
        , sub2 "static-site".data "static_site".data ]
    , description := "Auto-regenerating website project" }
  , { tag := "VectorBT"
    , keywords :=
        [ "vectorbt", "backtesting", "strategy optimization"
        , "feature ranking", "decile optimization", "sweet spot"
        , "boruta", "feature importance", "portfolio", "returns"
        , "sharpe ratio", "drawdown", "equity curve" ]
    , patterns :=
        [ containsSub "vectorbt".data
        , containsSub "backtest".data
        , sub2 "strategy-optimization".data "strategy_optimization".data
        , sub2 "feature-ranking".data "feature_ranking".data
        , sub2 "decile-optimization".data "decile_optimization".data
        , sub2 "sharpe-ratio".data "sharpe_ratio".data
        , sub2 "equity-curve".data "equity_curve".data ]
    , description := "Backtesting and strategy optimization" }
  , { tag := "Infrastructure"
    , keywords :=
        [ "docker", "github actions", "workflow", "deployment"
        , "ci/cd", "container", "service", "port", "endpoint"
        , "api", "server", "database", "environment", "config"
        , "logging", "monitoring", "debugging", "troubleshooting" ]
    , patterns :=
        [ sub2 "github-actions".data "github_actions".data
        , searchFB ".yml".data
        , searchFB ".yaml".data
        , containsSub "docker".data
        , occSubThen "port".data spacesThenDigit
        , occSubThen "localhost:".data headDigit
        , sub2 "api-endpoint".data "api_endpoint".data
        , sub2 "service-status".data "service_status".data ]
    , description := "Infrastructure, deployment, and system administration" } ]

/-- Number of matched keywords plus matched patterns of a context in the
lowered text (the `score` accumulated in `detect_project_contexts`). -/
def context_score (ctx : ProjectContext) (text : List Char) : Nat :=
  (ctx.keywords.countP fun kw => containsSub (lowerText kw.data) (lowerText text))
    + (ctx.patterns.countP fun p => p (lowerText text))

/-- Confidence of a context: matches divided by the total number of keywords
and patterns (`confidence = (score / total_possible) if total_possible > 0
else 0.0`). -/
def context_confidence (ctx : ProjectContext) (text : List Char) : ℚ :=
  let total := ctx.keywords.length + ctx.patterns.length
  if total = 0 then 0 else ratDiv (context_score ctx text) total

/-- Contexts with a positive confidence in definition order (the insertion
order of the `context_scores` dict). -/
def context_scores (text : List Char) : List (String × ℚ) :=
  project_contexts.filterMap fun ctx =>
    if 0 < context_confidence ctx text then some (ctx.tag, context_confidence ctx text)
    else none

/-- Detect which project contexts are present in the text: contexts with
positive confidence, sorted by confidence in descending order (Python's
`sorted` is stable; `List.insertionSort` with the non-strict descending
relation is also stable), filtered at the minimum threshold 0.05
(`ContextTagger.detect_project_contexts`). -/
def detect_project_contexts (text : List Char) : List (String × ℚ) :=
  (List.insertionSort (fun a b => b.2 ≤ a.2) (context_scores text)).filter
    fun p => decide (ratDiv 1 20 ≤ p.2)

/-- Python `text.split('\n', 1)` used by `add_visual_tags`. -/
def splitOnceNl (cs : List Char) : List Char × Option (List Char) :=
  match cs.span (fun c => c ≠ '\n') with
  | (before, []) => (before, none)
  | (before, _ :: after) => (before, some after)

/-- Render the visual tag string `" ".join(f"[{tag}]" for tag in tags)`. -/
def tagJoin (tags : List String) : List Char :=
  (List.intercalate " ".data (tags.map fun t => '[' :: t.data ++ [']']))

/-- Add visual tags to the beginning of entry text
(`ContextTagger.add_visual_tags`). -/
def add_visual_tags (text : List Char) (tags : List String) : List Char :=
  match tags with
  | [] => text
  | _ =>
    let tag_string := tagJoin tags
    if "##".data.isPrefixOf (pyStrip text) then
      match splitOnceNl text with
      | (l0, some l1) => l0 ++ ' ' :: tag_string ++ '\n' :: l1
      | (l0, none) => l0 ++ ' ' :: tag_string
    else
      tag_string ++ ' ' :: text

/-- Result record of `ContextTagger.tag_entry`. -/
structure TaggedEntry where
  original_text : List Char
  timestamp : Option (List Char)
  primary_context : String
  all_contexts : List (String × ℚ)
  tags : List String
  tagged_text : List Char

/-- Tag a single log entry with project contexts
(`ContextTagger.tag_entry`): the primary context is the highest-confidence
one (default `"General"`), visible tags use the stricter threshold 0.1. -/
def tag_entry (entry_text : List Char) (timestamp : Option (List Char) := none) :
    TaggedEntry :=
  let contexts := detect_project_contexts entry_text
  let primary : String :=
    match contexts with
    | [] => "General"
    | p :: _ => p.1
  let tags := (contexts.filter fun p => decide (ratDiv 1 10 ≤ p.2)).map Prod.fst
  { original_text := entry_text
  , timestamp := timestamp
  , primary_context := primary
  , all_contexts := contexts
  , tags := tags
  , tagged_text := add_visual_tags entry_text tags }

end ContextTagger

/-- Match of the heading regex `^##\s+(20\d{2}-\d{2}-\d{2}(?:\s+\d{2}:\d{2}:\d{2})?)`
used by both `split_into_entries` implementations; returns the captured
timestamp group on success.  `re.match` anchors at the start of the line and
ignores trailing text; the optional time group is taken when present. -/
def matchHeaderBody (rest : List Char) : Option (List Char) :=
  if (rest.takeWhile isPySpace).isEmpty then none
  else
    match rest.dropWhile isPySpace with
    | '2' :: '0' :: a :: b :: '-' :: c :: d :: '-' :: e :: f :: rest2 =>
      if a.isDigit && b.isDigit && c.isDigit && d.isDigit && e.isDigit && f.isDigit then
        let datePart := ['2', '0', a, b, '-', c, d, '-', e, f]
        let ws2 := rest2.takeWhile isPySpace
        if ws2.isEmpty then some datePart
        else
          match rest2.dropWhile isPySpace with
          | g :: h :: ':' :: i :: j :: ':' :: k :: m :: _ =>
            if g.isDigit && h.isDigit && i.isDigit && j.isDigit && k.isDigit && m.isDigit then
              some (datePart ++ ws2 ++ [g, h, ':', i, j, ':', k, m])
            else some datePart
          | _ => some datePart
      else none
    | _ => none

/-- Full heading match: the line must start with the literal `##`. -/
def matchHeader (l : List Char) : Option (List Char) :=
  if "##".data.isPrefixOf l then matchHeaderBody (l.drop 2) else none

/-- Generic line scanner shared by the two `split_into_entries`
implementations (`context_tagger.py` lines 246-279, `backfill-tagger.py`
lines 55-92): a heading line flushes the accumulated entry (if its stripped
text is non-empty) and starts a new one; the trailing entry is flushed at
the end.  `mk` builds the per-script entry record from the current
timestamp and the raw accumulated text. -/
def split_entries_go {ε : Type} (mk : Option (List Char) → List Char → ε)
    (ts : Option (List Char)) (acc : List Char) : List (List Char) → List ε
  | [] => if (pyStrip acc).isEmpty then [] else [mk ts acc]
  | line :: rest =>
    match matchHeader line with
    | some t =>
      (if (pyStrip acc).isEmpty then [] else [mk ts acc])
        ++ split_entries_go mk (some t) (line ++ ['\n']) rest
    | none => split_entries_go mk ts (acc ++ line ++ ['\n']) rest

/-- Entry record built by `ContextTagger.split_into_entries`. -/
structure SEntry where
  timestamp : Option (List Char)
  text : List Char
deriving DecidableEq

namespace ContextTagger

/-- Split session content into individual entries by timestamp headers
(`ContextTagger.split_into_entries`). -/
def split_into_entries (content : List Char) : List SEntry :=
  split_entries_go (fun ts acc => ⟨ts, pyStrip acc⟩) none [] (splitNl content)

end ContextTagger

/-- Entry record built by `BackfillTagger.split_into_entries`. -/
structure BEntry where
  timestamp : Option (List Char)
  header_line : List Char
  content : List Char
  original_content : List Char
deriving DecidableEq

/-- Read a `[^\]]+` group followed by `]`: returns the group and the rest. -/
def scanTagBody : List Char → Option (List Char × List Char)
  | [] => none
  | c :: r =>
    if c = ']' then some ([], r)
    else
      match scanTagBody r with
      | some (g, rest) => some (c :: g, rest)
      | none => none

/-- Fuelled scanner behind `findTags`; the consumed input shrinks at every
step, so fuel equal to the input length always suffices (the fuel argument
only makes the recursion structural so that the kernel can evaluate it). -/
def findTagsFuel : Nat → List Char → List (List Char)
  | 0, _ => []
  | _ + 1, [] => []
  | fuel + 1, '[' :: rest =>
    match scanTagBody rest with
    | some (g, r3) => if g.isEmpty then findTagsFuel fuel rest else g :: findTagsFuel fuel r3
    | none => findTagsFuel fuel rest
  | fuel + 1, _ :: rest => findTagsFuel fuel rest

/-- Python `re.findall(r'\[([^\]]+)\]', s)`: non-overlapping bracketed
groups, scanning left to right; a position where the pattern fails to match
advances by one character. -/
def findTags (cs : List Char) : List (List Char) :=
  findTagsFuel cs.length cs

namespace BackfillTagger

/-- Split content into individual timestamped entries
(`BackfillTagger.split_into_entries`): same scanning loop as the context
tagger, additionally recording the first line of the raw accumulated entry
as `header_line`. -/
def split_into_entries (content : List Char) : List BEntry :=
  split_entries_go
    (fun ts acc =>
      { timestamp := ts
      , header_line := acc.takeWhile (fun c => c ≠ '\n')
      , content := pyStrip acc
      , original_content := pyStrip acc })
    none [] (splitNl content)

/-- Result record of `BackfillTagger.process_entry`. -/
structure ProcessedEntry where
  timestamp : Option (List Char)
  header_line : List Char
  content : List Char
  original_content : List Char
  primary_context : String
  contexts : List (String × ℚ)
  tags : List String
  tagged_content : List Char
  tags_added : List String

/-- Process a single entry and add context tags
(`BackfillTagger.process_entry`, `backfill-tagger.py` lines 94-131):
detect contexts, keep tags at the 0.1 threshold, drop tags already present
in the header line, and append the remaining ones to the entry's first
line. -/
def process_entry (e : BEntry) : ProcessedEntry :=
  let contexts := ContextTagger.detect_project_contexts e.content
  let primary : String :=
    match contexts with
    | [] => "General"
    | p :: _ => p.1
  let tags := (contexts.filter fun p => decide (ratDiv 1 10 ≤ p.2)).map Prod.fst
  let existing_tags := (findTags e.header_line).map fun g => String.mk g
  let tags_to_add := tags.filter fun t => !(existing_tags.contains t)
  let tagged_content :=
    if tags_to_add.isEmpty then e.content
    else
      let tag_string := ' ' :: ContextTagger.tagJoin tags_to_add
      match splitNl e.content with
      | [] => e.content ++ tag_string
      | l0 :: ls => List.intercalate ['\n'] ((l0 ++ tag_string) :: ls)
  { timestamp := e.timestamp
  , header_line := e.header_line
  , content := e.content
  , original_content := e.original_content
  , primary_context := primary
  , contexts := contexts
  , tags := tags
  , tagged_content := tagged_content
  , tags_added := tags_to_add }

/-- Reconstruct the file content with tagged entries
(`BackfillTagger.reconstruct_file_content`): keep the lines before the
first timestamp header, then append each entry's tagged content separated
by blank lines. -/
def reconstruct_file_content (processed : List ProcessedEntry)
    (original_content : List Char) : List Char :=
  let header_content := (splitNl original_content).takeWhile
    fun l => (matchHeader l).isNone
  let base := List.intercalate ['\n'] header_content
  let base2 :=
    match header_content.getLast? with
    | some last => if (pyStrip last).isEmpty then base else base ++ ['\n', '\n']
    | none => base
  let withEntries := processed.foldl
    (fun acc e => acc ++ e.tagged_content ++ ['\n', '\n']) base2
  pyRstrip withEntries ++ ['\n']

/-- The pure content transformation performed by
`BackfillTagger.process_file` on one file (lines 169-191): split, process
every entry, reconstruct. -/
def process_file_content (content : List Char) : List Char :=
  reconstruct_file_content ((split_into_entries content).map process_entry) content

end BackfillTagger

namespace SimpleContextTagger

/-- The pattern table of `SimpleContextTagger.__init__`
(`simple-backfill.py` lines 17-46); each regex is embedded as a boolean
matcher over the lowered text (searches use `re.IGNORECASE` on
`text_lower`). -/
def project_patterns : List (String × List (List Char → Bool)) :=
  [ ( "NinjaTrader"
    , [ containsSub "ninjatrader".data, containsSub "ninja trader".data
      , containsSub "order-manager".data, containsSub "trading strategy".data
      , containsSub "signal approval".data, containsSub "position tracking".data
      , containsSub "entry signal".data, containsSub "exit signal".data
      , containsSub "ordermanagement.cs".data
      , containsSub "traditionalstrategies.cs".data
      , containsSub "signalfeatures.cs".data
      , containsSub "deregisterposition".data, containsSub "registerposition".data
      , searchBB "pnl".data, containsSub "mgc".data, containsSub "trading".data
      , containsSub "agentic memory".data, containsSub "risk agent".data
      , containsSub "me service".data, containsSub "mi service".data
      , containsSub "rf service".data
      , occSubThen "$".data headDigit
      , subThenLineSub "bars".data "ohlc".data
      , containsSub "stop loss".data, containsSub "take profit".data ] )
  , ( "FluidJournal"
    , [ containsSub "fluid journal".data, containsSub "fluidjournal".data
      , containsSub "production-curves".data
      , containsSub "storage agent".data, containsSub "risk service".data
      , containsSub "langchain".data, containsSub "vector store".data
      , containsSub "lancedb".data, containsSub "graduation".data
      , containsSub "feature graduation".data, containsSub "range-based".data
      , containsSub "gaussian process".data, containsSub "similarity matching".data
      , containsSub "pattern clustering".data
      , containsSub "model training".data, containsSub "rf training".data
      , containsSub "pytorch".data, containsSub "machine learning".data
      , containsSub "feature importance".data, containsSub "vectorbt".data
      , containsSub "backtesting".data
      , searchFB ".py".data, searchFB ".js".data ] )
  , ( "VectorBT"
    , [ containsSub "vectorbt".data, containsSub "backtesting".data
      , containsSub "strategy optimization".data, containsSub "feature ranking".data
      , containsSub "decile optimization".data, containsSub "sweet spot".data
      , containsSub "boruta".data, containsSub "portfolio".data
      , containsSub "returns".data, containsSub "sharpe ratio".data
      , containsSub "drawdown".data, containsSub "equity curve".data ] )
  , ( "Infrastructure"
    , [ containsSub "docker".data, containsSub "github actions".data
      , containsSub "workflow".data, containsSub "deployment".data
      , containsSub "ci/cd".data, containsSub "container".data
      , containsSub "service".data
      , occSubThen "port ".data headDigit
      , containsSub "endpoint".data, containsSub "api".data
      , containsSub "server".data, containsSub "database".data
      , containsSub "environment".data, containsSub "config".data
      , containsSub "logging".data, containsSub "monitoring".data
      , containsSub "debugging".data
      , occSubThen "localhost:".data headDigit ] ) ]

/-- Detect project contexts in text (`SimpleContextTagger.detect_contexts`):
a context is included when at least 2 of its patterns match; its confidence
is `min(matches / len(patterns), 1.0)`; the result is sorted by confidence
in descending order (stable, like Python's `sorted`). -/
def detect_contexts (text : List Char) : List (String × ℚ) :=
  let text_lower := lowerText text
  let contexts := project_patterns.filterMap fun np =>
    let nMatches := np.2.countP fun p => p text_lower
    if 2 ≤ nMatches then some (np.1, min (ratDiv nMatches np.2.length) 1) else none
  List.insertionSort (fun a b => b.2 ≤ a.2) contexts

/-- Tag selection performed inline by `process_claude_memory`
(`simple-backfill.py` lines 124-130): contexts at confidence at least 0.1,
capped at 3 tags. -/
def process_claude_memory_tags (text : List Char) : List String :=
  (((detect_contexts text).filter fun p => decide (ratDiv 1 10 ≤ p.2)).map Prod.fst).take 3

end SimpleContextTagger

/-- Fuelled loop behind `pyReplace`; the input shrinks at every step, so
fuel equal to the input length always suffices (the fuel only makes the
recursion structural so that the kernel can evaluate it). -/
def pyReplaceFuel (pat rep : List Char) : Nat → List Char → List Char
  | 0, s => s
  | _ + 1, [] => []
  | fuel + 1, c :: t =>
    if !pat.isEmpty && pat.isPrefixOf (c :: t) then
      rep ++ pyReplaceFuel pat rep fuel ((c :: t).drop pat.length)
    else c :: pyReplaceFuel pat rep fuel t

/-- Python `s.replace(pat, rep)`: replace all non-overlapping occurrences,
scanning left to right. -/
def pyReplace (pat rep : List Char) (s : List Char) : List Char :=
  pyReplaceFuel pat rep s.length s

/-- Entry record built by `IncrementalProcessor.parse_new_entries`
(both variants): timestamp, raw accumulated text (hashed for the cache),
flattened content and the detected project. -/
structure LogEntry where
  timestamp : List Char
  raw : List Char
  content : List Char
  project : Option String
deriving DecidableEq

/-- The date-header test `line.startswith('## 20')`. -/
def headerStarts (line : List Char) : Bool :=
  "## 20".data.isPrefixOf line

/-- Project detection of the HTTP processor
(`incremental_processor_http.py` lines 98-106). -/
def updProjectHttp (cur : Option String) (line : List Char) : Option String :=
  if containsSub "[NinjaTrader]".data line || containsSub "order-manager".data (lowerText line)
      || containsSub "NT_OrderManager".data line then some "nt"
  else if containsSub "[FluidJournal]".data line || containsSub "agentic".data (lowerText line)
      || containsSub "fluid".data (lowerText line) then some "fluid"
  else if containsSub "[Cohere]".data line || containsSub "cohere".data (lowerText line) then
    some "fluid"
  else if containsSub "[VectorBT]".data line then some "fluid"
  else cur

/-- Project detection of the library-based processor
(`incremental_processor.py` lines 88-92). -/
def updProjectLib (cur : Option String) (line : List Char) : Option String :=
  if containsSub "[NinjaTrader]".data line || containsSub "order-manager".data (lowerText line) then
    some "nt"
  else if containsSub "[FluidJournal]".data line || containsSub "agentic".data (lowerText line) then
    some "fluid"
  else cur

/-- Append a non-blank body line to the current entry
(`current_entry['raw'] += '\n' + line`, `current_entry['content'] += line + ' '`,
then project detection). -/
def appendLine (upd : Option String → List Char → Option String)
    (e : LogEntry) (line : List Char) : LogEntry :=
  { e with
    raw := e.raw ++ '\n' :: line
    content := e.content ++ line ++ [' ']
    project := upd e.project line }

/-- Start a new entry at a date-header line
(`timestamp = line.replace('## ', '').strip()`, `raw = line`). -/
def newEntryFromHeader (line : List Char) : LogEntry :=
  { timestamp := pyStrip (pyReplace "## ".data [] line)
  , raw := line
  , content := []
  , project := none }

/-- Flush of the accumulated entry in `parse_new_entries`: the entry is
reported only when its raw-text hash is not already a cache key. -/
def flushNew (hashF : List Char → String) (cacheKeys : List String) :
    Option LogEntry → List LogEntry
  | some e => if cacheKeys.contains (hashF e.raw) then [] else [e]
  | none => []

/-- Line scanner shared by the two `parse_new_entries` implementations
(`incremental_processor_http.py` lines 64-114, `incremental_processor.py`
lines 54-100), parametrised by the project-detection step: a `## 20` header
flushes the current entry (if its hash is new) and starts a new one; blank
lines are skipped; the trailing entry is flushed at the end. -/
def parse_entries_go (upd : Option String → List Char → Option String)
    (hashF : List Char → String) (cacheKeys : List String)
    (cur : Option LogEntry) : List (List Char) → List LogEntry
  | [] => flushNew hashF cacheKeys cur
  | line :: rest =>
    if headerStarts line then
      flushNew hashF cacheKeys cur
        ++ parse_entries_go upd hashF cacheKeys (some (newEntryFromHeader line)) rest
    else
      match cur with
      | some e =>
        if (pyStrip line).isEmpty then parse_entries_go upd hashF cacheKeys (some e) rest
        else parse_entries_go upd hashF cacheKeys (some (appendLine upd e line)) rest
      | none => parse_entries_go upd hashF cacheKeys none rest

namespace IncrementalProcessorHttp

/-- Find entries that have not been processed yet
(`incremental_processor_http.py`, `IncrementalProcessor.parse_new_entries`).
The SHA-256 hex digest `get_entry_hash` is abstracted as the parameter
`hashF`; the claims proved about this function hold for every hash
function, hence in particular for SHA-256. -/
def parse_new_entries (hashF : List Char → String) (cacheKeys : List String)
    (content : List Char) : List LogEntry :=
  parse_entries_go updProjectHttp hashF cacheKeys none (splitNl content)

/-- Outcome of one `process_new_entries` run: the entries for which an LLM
request was issued, the cache contents passed to `save_cache` (`none` when
`save_cache` was never called), and the re-raised error, if any.  The
`last_processed` wall-clock field of the cache is not modelled
(`datetime.now()` is not a pure value). -/
structure RunResult (σ : Type) where
  calls : List LogEntry
  savedCache : Option (List (String × σ))
  failed : Option String

/-- Python dict assignment `d[k] = v` on an association list. -/
def dictSet {σ : Type} (k : String) (v : σ) : List (String × σ) → List (String × σ)
  | [] => [(k, v)]
  | (k2, v2) :: t => if k2 = k then (k, v) :: t else (k2, v2) :: dictSet k v t

/-- The `for entry in new_entries` loop of `process_new_entries`: each entry
triggers one `process_with_openai` call; a success is written into the
in-memory cache, the first failure stops the loop and is re-raised.
Returns the in-memory cache, the entries called, and the error if any. -/
def process_loop {σ : Type} (llm : LogEntry → Except String σ) (hashF : List Char → String)
    (cache : List (String × σ)) :
    List LogEntry → List (String × σ) × List LogEntry × Option String
  | [] => (cache, [], none)
  | e :: rest =>
    match llm e with
    | Except.ok s =>
      let r := process_loop llm hashF (dictSet (hashF e.raw) s cache) rest
      (r.1, e :: r.2.1, r.2.2)
    | Except.error msg => (cache, [e], some msg)

/-- Process only new entries and update the cache
(`incremental_processor_http.py`, `IncrementalProcessor.process_new_entries`,
lines 231-269): parse the new entries, call the LLM on each, and only after
the whole loop succeeds call `save_cache`; on a failure the exception is
re-raised before `save_cache` is reached. -/
def process_new_entries {σ : Type} (llm : LogEntry → Except String σ)
    (hashF : List Char → String) (cache : List (String × σ))
    (content : List Char) : RunResult σ :=
  let news := parse_new_entries hashF (cache.map Prod.fst) content
  if news.isEmpty then { calls := [], savedCache := none, failed := none }
  else
    let r := process_loop llm hashF cache news
    match r.2.2 with
    | some msg => { calls := r.2.1, savedCache := none, failed := some msg }
    | none => { calls := r.2.1, savedCache := some r.1, failed := none }

/-- The cache file contents after a run: unchanged unless `save_cache` ran. -/
def persistedAfter {σ : Type} (cacheBefore : List (String × σ)) (r : RunResult σ) :
    List (String × σ) :=
  match r.savedCache with
  | some c => c
  | none => cacheBefore

/-- Outcome of an HTTP request attempt, as distinguished by the handlers of
`make_openai_request`: a parsed successful body, an `HTTPError` with status
code, a `URLError` (connection error), or any other exception (including
JSON decode and key errors while reading the response). -/
inductive NetResult where
  | success (body : String)
  | httpError (code : Nat) (body : String)
  | urlError (msg : String)
  | otherError (msg : String)

/-- Observable outcome of `make_openai_request`: the returned value or
raised error, the number of attempts performed, and the sleeps executed
between attempts. -/
structure ReqOutcome where
  result : Except String String
  attempts : Nat
  sleeps : List Nat

/-- The retry loop `for attempt in range(max_retries)` of
`make_openai_request` (`incremental_processor_http.py` lines 137-170) with
`max_retries = 3`, `retry_delay` starting at 1 and doubling: HTTP 429 and
connection errors are retried while `attempt < max_retries - 1`; every
other outcome ends the loop at once.  The fuel argument counts the
remaining loop iterations; exhausting it is the `raise` after the loop. -/
def requestGo (oracle : Nat → NetResult) :
    Nat → Nat → Nat → List Nat → ReqOutcome
  | 0, attempt, _, sleeps =>
    ⟨Except.error "Failed to get response from OpenAI after all retries", attempt, sleeps⟩
  | r + 1, attempt, delay, sleeps =>
    match oracle attempt with
    | NetResult.success body => ⟨Except.ok body, attempt + 1, sleeps⟩
    | NetResult.httpError code body =>
      if code = 429 ∧ attempt < 2 then
        requestGo oracle r (attempt + 1) (delay * 2) (sleeps ++ [delay])
      else ⟨Except.error ("OpenAI API error: " ++ body), attempt + 1, sleeps⟩
    | NetResult.urlError msg =>
      if attempt < 2 then
        requestGo oracle r (attempt + 1) (delay * 2) (sleeps ++ [delay])
      else ⟨Except.error ("Connection failed after 3 attempts: " ++ msg), attempt + 1, sleeps⟩
    | NetResult.otherError msg => ⟨Except.error msg, attempt + 1, sleeps⟩

/-- Make a request to the OpenAI API
(`IncrementalProcessor.make_openai_request`): run the retry loop from
attempt 0 with `retry_delay = 1`.  The network is abstracted as an oracle
giving the outcome of each attempt. -/
def make_openai_request (oracle : Nat → NetResult) : ReqOutcome :=
  requestGo oracle 3 0 1 []

/-- An attempt outcome the loop retries: a connection error, or HTTP 429. -/
def retryable : NetResult → Bool
  | NetResult.urlError _ => true
  | NetResult.httpError code _ => code == 429
  | _ => false

/-- An attempt outcome that is an error the loop never retries: an HTTP
error other than 429, or any other exception. -/
def nonRetryableErr : NetResult → Bool
  | NetResult.httpError code _ => !(code == 429)
  | NetResult.otherError _ => true
  | _ => false

end IncrementalProcessorHttp

namespace IncrementalProcessorLib

/-- Find entries that have not been processed yet
(`incremental_processor.py`, `IncrementalProcessor.parse_new_entries`);
identical to the HTTP variant except for the project-detection step.  The
SHA-256 `get_entry_hash` is abstracted as `hashF`. -/
def parse_new_entries (hashF : List Char → String) (cacheKeys : List String)
    (content : List Char) : List LogEntry :=
  parse_entries_go updProjectLib hashF cacheKeys none (splitNl content)

end IncrementalProcessorLib

/-- Every element surviving `dropWhile p` satisfies `p` exactly when every
element of the original list does. -/
theorem forall_mem_dropWhile {α : Type} (p : α → Bool) (cs : List α) :
    (∀ c ∈ cs.dropWhile p, p c = true) ↔ (∀ c ∈ cs, p c = true) := by
  induction cs with
  | nil => simp
  | cons c t ih =>
    by_cases hc : p c = true
    · simpa [List.dropWhile_cons, hc] using ih
    · simp [List.dropWhile_cons, hc]

/-- The stripped text is empty exactly when every character is whitespace. -/
theorem pyStrip_eq_nil_iff (cs : List Char) :
    pyStrip cs = [] ↔ ∀ c ∈ cs, isPySpace c = true := by
  unfold pyStrip
  rw [List.reverse_eq_nil_iff, List.dropWhile_eq_nil_iff]
  constructor
  · intro h c hc
    exact (forall_mem_dropWhile isPySpace cs).mp
      (fun d hd => h d (List.mem_reverse.mpr hd)) c hc
  · intro h c hc
    exact (forall_mem_dropWhile isPySpace cs).mpr h c (List.mem_reverse.mp hc)

/-- Boolean form: `pyStrip cs` is empty exactly when `cs` is all-whitespace. -/
theorem pyStrip_isEmpty (cs : List Char) :
    (pyStrip cs).isEmpty = cs.all isPySpace := by
  by_cases h : ∀ c ∈ cs, isPySpace c = true
  · rw [(pyStrip_eq_nil_iff cs).mpr h]
    simp only [List.isEmpty_nil]
    exact (List.all_eq_true.mpr h).symm
  · have h1 : pyStrip cs ≠ [] := fun hx => h ((pyStrip_eq_nil_iff cs).mp hx)
    rw [List.isEmpty_eq_false_iff_exists_mem.mpr ?side]
    · symm
      rw [List.all_eq_false]
      push_neg at h
      obtain ⟨c, hc, hpc⟩ := h
      exact ⟨c, hc, hpc⟩
    · cases hp : pyStrip cs with
      | nil => exact absurd hp h1
      | cons a t => exact ⟨a, by simp [hp]⟩

/-- A line accepted by the heading pattern starts with `##`. -/
theorem matchHeader_isSome_shape (l : List Char) (h : (matchHeader l).isSome = true) :
    ∃ rest, l = '#' :: '#' :: rest := by
  unfold matchHeader at h
  by_cases hp : "##".data.isPrefixOf l = true
  · obtain ⟨t, ht⟩ := List.isPrefixOf_iff_prefix.mp hp
    exact ⟨t, by rw [← ht]; rfl⟩
  · rw [Bool.not_eq_true] at hp
    simp [hp] at h

/-- The accumulated text before the first heading (including the running
accumulator) is entirely whitespace. -/
def leadBlank (acc : List Char) (ls : List (List Char)) : Bool :=
  acc.all isPySpace
    && (ls.takeWhile fun l => (matchHeader l).isNone).all fun l => l.all isPySpace

/-- Length of the split produced by the shared scanning loop: one entry per
heading line, plus one for a non-blank accumulation before the first
heading. -/
theorem split_entries_go_length {ε : Type} (mk : Option (List Char) → List Char → ε) :
    ∀ (ls : List (List Char)) (ts : Option (List Char)) (acc : List Char),
      (split_entries_go mk ts acc ls).length
        = ls.countP (fun l => (matchHeader l).isSome)
          + (if leadBlank acc ls then 0 else 1) := by
  intro ls
  induction ls with
  | nil =>
    intro ts acc
    simp only [split_entries_go, List.countP_nil, leadBlank, List.takeWhile_nil,
      List.all_nil, Bool.and_true, pyStrip_isEmpty]
    cases h : acc.all isPySpace <;> simp [h]
  | cons line rest ih =>
    intro ts acc
    cases hml : matchHeader line with
    | some t =>
      obtain ⟨r0, hline⟩ := matchHeader_isSome_shape line (by simp [hml])
      simp only [split_entries_go, hml]
      rw [List.length_append, ih (some t) (line ++ ['\n'])]
      have hfalse : (line ++ ['\n']).all isPySpace = false := by
        subst hline
        simp [List.all_cons, show isPySpace '#' = false from rfl]
      have hlb : leadBlank (line ++ ['\n']) rest = false := by
        simp [leadBlank, hfalse]
      rw [hlb]
      have hcount : (line :: rest).countP (fun l => (matchHeader l).isSome)
          = rest.countP (fun l => (matchHeader l).isSome) + 1 := by
        rw [List.countP_cons]
        simp [hml]
      rw [hcount]
      have hlb2 : leadBlank acc (line :: rest) = acc.all isPySpace := by
        simp [leadBlank, List.takeWhile_cons, hml]
      rw [hlb2, pyStrip_isEmpty]
      cases h : acc.all isPySpace <;> simp [h] <;> omega
    | none =>
      simp only [split_entries_go, hml]
      rw [ih ts (acc ++ line ++ ['\n'])]
      have hcount : (line :: rest).countP (fun l => (matchHeader l).isSome)
          = rest.countP (fun l => (matchHeader l).isSome) := by
        rw [List.countP_cons]
        simp [hml]
      rw [hcount]
      have hlb : leadBlank (acc ++ line ++ ['\n']) rest = leadBlank acc (line :: rest) := by
        simp only [leadBlank, List.takeWhile_cons, hml, Option.isNone_some]
        simp [List.all_append, List.all_cons, show isPySpace '\n' = true from rfl,
          Bool.and_assoc]
      rw [hlb]

/-- C2.  Splitting a document on the heading-timestamp pattern
`## <ISO-date>[ <time>]` yields exactly one entry per heading line, plus
exactly one additional entry when the lines before the first heading
contain non-whitespace content (and none otherwise); the trailing partial
entry is flushed at end of input.  This holds for both implementations,
`ContextTagger.split_into_entries` and `BackfillTagger.split_into_entries`. -/
theorem c2_split_entry_count (content : List Char) :
    (ContextTagger.split_into_entries content).length
        = (splitNl content).countP (fun l => (matchHeader l).isSome)
          + (if ((splitNl content).takeWhile fun l => (matchHeader l).isNone).all
                (fun l => l.all isPySpace) then 0 else 1)
    ∧ (BackfillTagger.split_into_entries content).length
        = (splitNl content).countP (fun l => (matchHeader l).isSome)
          + (if ((splitNl content).takeWhile fun l => (matchHeader l).isNone).all
                (fun l => l.all isPySpace) then 0 else 1) := by
  constructor
  · rw [ContextTagger.split_into_entries, split_entries_go_length]
    simp [leadBlank]
  · rw [BackfillTagger.split_into_entries, split_entries_go_length]
    simp [leadBlank]

/-- The exact rational of a count quotient is nonnegative. -/
theorem ratDiv_nonneg (a b : ℕ) : 0 ≤ ratDiv a b := by
  unfold ratDiv
  rw [Rat.divInt_eq_div]
  positivity

/-- The exact rational of a count quotient is at most one when the
numerator is at most the denominator. -/
theorem ratDiv_le_one (a b : ℕ) (h : a ≤ b) : ratDiv a b ≤ 1 := by
  unfold ratDiv
  rcases Nat.eq_zero_or_pos b with hb | hb
  · subst hb
    simp [Rat.divInt_zero]
  · rw [Rat.divInt_eq_div]
    rw [div_le_one (by exact_mod_cast hb)]
    exact_mod_cast h

/-- C7.  For every input text and every project context, the confidence
score computed by the tagger (matched patterns divided by total patterns
for that context) lies in the closed interval [0, 1]; likewise every
confidence reported by the simplified tagger of `simple-backfill.py`. -/
theorem c7_confidence_in_unit_interval (text : List Char) (ctx : ProjectContext)
    (p : String × ℚ) (hp : p ∈ SimpleContextTagger.detect_contexts text) :
    (0 ≤ ContextTagger.context_confidence ctx text
      ∧ ContextTagger.context_confidence ctx text ≤ 1)
    ∧ (0 ≤ p.2 ∧ p.2 ≤ 1) := by
  constructor
  · unfold ContextTagger.context_confidence
    by_cases h0 : ctx.keywords.length + ctx.patterns.length = 0
    · simp [h0]
    · simp only [h0, if_false]
      refine ⟨ratDiv_nonneg _ _, ratDiv_le_one _ _ ?_⟩
      unfold ContextTagger.context_score
      exact Nat.add_le_add (List.countP_le_length _) (List.countP_le_length _)
  · simp only [SimpleContextTagger.detect_contexts] at hp
    have hp2 := (List.perm_insertionSort (fun a b : String × ℚ => b.2 ≤ a.2) _).mem_iff.mp hp
    rw [List.mem_filterMap] at hp2
    obtain ⟨np, _, hfn⟩ := hp2
    split at hfn
    · cases hfn.symm
      refine ⟨le_min (ratDiv_nonneg _ _) zero_le_one, ?_⟩
      exact min_le_right _ _
    · exact absurd hfn (by simp)

/-- C6.  When no keyword and no regex pattern of any project context
matches the text, `detect_project_contexts` returns the empty list and
`tag_entry` assigns the primary context label "General" with an empty tag
list. -/
theorem c6_no_match_yields_general (text : List Char)
    (h : ∀ ctx ∈ ContextTagger.project_contexts,
      (∀ kw ∈ ctx.keywords, containsSub (lowerText kw.data) (lowerText text) = false)
        ∧ (∀ p ∈ ctx.patterns, p (lowerText text) = false)) :
    ContextTagger.detect_project_contexts text = []
      ∧ (ContextTagger.tag_entry text).primary_context = "General"
      ∧ (ContextTagger.tag_entry text).tags = [] := by
  have hscores : ContextTagger.context_scores text = [] := by
    unfold ContextTagger.context_scores
    rw [List.filterMap_eq_nil_iff]
    intro ctx hctx
    have hs : ContextTagger.context_score ctx text = 0 := by
      unfold ContextTagger.context_score
      rw [List.countP_eq_zero.mpr, List.countP_eq_zero.mpr, Nat.add_zero]
      · intro p hp
        simp [(h ctx hctx).2 p hp]
      · intro kw hkw
        simp [(h ctx hctx).1 kw hkw]
    have hc : ContextTagger.context_confidence ctx text = 0 := by
      unfold ContextTagger.context_confidence
      rw [hs]
      by_cases ht : ctx.keywords.length + ctx.patterns.length = 0
      · simp [ht]
      · simp [ht, ratDiv, Rat.zero_divInt]
    simp [hc]
  have hdetect : ContextTagger.detect_project_contexts text = [] := by
    unfold ContextTagger.detect_project_contexts
    rw [hscores]
    rfl
  refine ⟨hdetect, ?_, ?_⟩ <;> simp [ContextTagger.tag_entry, hdetect]

/-- C10.  `add_visual_tags` with an empty tag list is the identity on
every text whatsoever, and consequently `tag_entry` on an input whose
detected contexts all fall below the 0.1 visible-tag threshold returns the
entry text unchanged.  The hypothesis concerns only the second input
`text2`; the identity conjunct holds for every `text` unconditionally. -/
theorem c10_empty_tags_identity (text text2 : List Char)
    (h : ∀ p ∈ ContextTagger.detect_project_contexts text2, p.2 < ratDiv 1 10) :
    ContextTagger.add_visual_tags text [] = text
      ∧ (ContextTagger.tag_entry text2).tagged_text = text2 := by
  have htags : (ContextTagger.detect_project_contexts text2).filter
      (fun p => decide (ratDiv 1 10 ≤ p.2)) = [] := by
    rw [List.filter_eq_nil_iff]
    intro p hp
    simp [not_le.mpr (h p hp)]
  exact ⟨rfl, by simp [ContextTagger.tag_entry, htags, ContextTagger.add_visual_tags]⟩

set_option maxRecDepth 1000000

/-- C8.  On the input `## 2025-07-23 - Fixed bug in OrderManagement.cs, PnL
now correct` the tagger scores the NinjaTrader context strictly positively
(5 of its 43 keywords and patterns match, among them `OrderManagement.cs`,
`pnl` and the `nt` substring) and `tag_entry` yields the visible tag
`NinjaTrader`. -/
theorem c8_ninjatrader_example :
    ContextTagger.detect_project_contexts
        "## 2025-07-23 - Fixed bug in OrderManagement.cs, PnL now correct".data
      = [("NinjaTrader", ratDiv 5 43)]
      ∧ 0 < ratDiv 5 43
      ∧ (ContextTagger.tag_entry
          "## 2025-07-23 - Fixed bug in OrderManagement.cs, PnL now correct".data).tags
        = ["NinjaTrader"] := by
  decide

/-- C1 counterexample.  `ContextTagger.tag_entry` does not cap the visible
tag list at the small fixed maximum (3, the `[:3]` used by the simple
backfill): on this input every one of the five contexts reaches the 0.1
threshold and five tags are returned. -/
theorem c1_counterexample :
    3 < ((ContextTagger.tag_entry
        "ninjatrader gold futures trading pnl langchain lancedb cohere website markdown portfolio returns docker server".data).tags).length := by
  decide

/-- C3 counterexample.  Tagging a document twice is not idempotent: the
first backfill pass appends `[VectorBT]` to the header, the appended tag
text itself matches the `vectorbt` keyword of the FluidJournal context and
lifts it over the 0.1 threshold, so the second pass adds `[FluidJournal]`
and the output changes again. -/
theorem c3_counterexample :
    BackfillTagger.process_file_content (BackfillTagger.process_file_content
        "## 2025-07-23 test\npytorch graduation machine learning portfolio returns".data)
      ≠ BackfillTagger.process_file_content
        "## 2025-07-23 test\npytorch graduation machine learning portfolio returns".data := by
  decide

/-- Witness for C6: the empty text matches no keyword and no pattern. -/
theorem c6_witness :
    ContextTagger.detect_project_contexts [] = []
      ∧ (ContextTagger.tag_entry []).primary_context = "General"
      ∧ (ContextTagger.tag_entry []).tags = [] :=
  c6_no_match_yields_general [] (by decide)

/-- Witness for C7: the simple tagger reports Infrastructure at confidence
2/18 on `docker server`, and that confidence lies in [0, 1]. -/
theorem c7_witness :
    0 ≤ (("Infrastructure", ratDiv 1 9) : String × ℚ).2
      ∧ (("Infrastructure", ratDiv 1 9) : String × ℚ).2 ≤ 1 :=
  (c7_confidence_in_unit_interval "docker server".data ⟨"NinjaTrader", [], [], ""⟩
    ("Infrastructure", ratDiv 1 9) (by decide)).2

/-- Witness for C10: the empty-tag identity holds even on a text whose
contexts pass the threshold, and on the empty text every detected context
(vacuously) falls below the threshold, so the tagged text is unchanged. -/
theorem c10_witness :
    ContextTagger.add_visual_tags "ninjatrader gold futures trading pnl".data []
        = "ninjatrader gold futures trading pnl".data
      ∧ (ContextTagger.tag_entry []).tagged_text = [] :=
  c10_empty_tags_identity "ninjatrader gold futures trading pnl".data [] (by decide)

/-- The first components produced by the scoring `filterMap` form a
sublist of the context tags. -/
theorem filterMap_fst_sublist (f : ProjectContext → Option (String × ℚ))
    (hf : ∀ ctx p, f ctx = some p → p.1 = ctx.tag) :
    ∀ l : List ProjectContext,
      ((l.filterMap f).map Prod.fst).Sublist (l.map ProjectContext.tag) := by
  intro l
  induction l with
  | nil => simp
  | cons ctx t ih =>
    rw [List.filterMap_cons]
    cases h : f ctx with
    | none =>
      simp only [List.map_cons]
      exact ih.cons _
    | some p =>
      simp only [List.map_cons]
      rw [hf ctx p h]
      exact ih.cons₂ _

/-- The tag components of `detect_project_contexts` are pairwise distinct
(each context contributes at most once and the five tags differ). -/
theorem detect_fst_nodup (text : List Char) :
    ((ContextTagger.detect_project_contexts text).map Prod.fst).Nodup := by
  have h1 : ((ContextTagger.context_scores text).map Prod.fst).Sublist
      (ContextTagger.project_contexts.map ProjectContext.tag) := by
    apply filterMap_fst_sublist
    intro ctx p hp
    by_cases h0 : 0 < ContextTagger.context_confidence ctx text
    · simp [h0] at hp
      simp [← hp]
    · simp [h0] at hp
  have h2 : (ContextTagger.project_contexts.map ProjectContext.tag).Nodup := by decide
  have h3 := h1.nodup h2
  have h4 : ((List.insertionSort (fun a b : String × ℚ => b.2 ≤ a.2)
      (ContextTagger.context_scores text)).map Prod.fst).Nodup :=
    ((List.perm_insertionSort _ _).map Prod.fst).symm.nodup h3
  unfold ContextTagger.detect_project_contexts
  exact ((List.filter_sublist _).map Prod.fst).nodup h4

/-- C3 amended.  `BackfillTagger.process_entry` never adds a tag that is
already present in the entry's header line, and the tags it adds in one
pass are pairwise distinct, so a single pass introduces no duplicate tags
(idempotence of a full second pass fails; see the counterexample). -/
theorem c3_no_duplicate_tags (e : BEntry) :
    (∀ t ∈ (BackfillTagger.process_entry e).tags_added,
        t ∉ (findTags e.header_line).map (fun g => String.mk g))
      ∧ (BackfillTagger.process_entry e).tags_added.Nodup := by
  have hta : (BackfillTagger.process_entry e).tags_added
      = (((ContextTagger.detect_project_contexts e.content).filter
            (fun p => decide (ratDiv 1 10 ≤ p.2))).map Prod.fst).filter
          (fun t => !(((findTags e.header_line).map (fun g => String.mk g)).contains t)) := rfl
  constructor
  · intro t ht hmem
    rw [hta, List.mem_filter] at ht
    have hc := ht.2
    rw [Bool.not_eq_true'] at hc
    have h2 : ((findTags e.header_line).map (fun g => String.mk g)).contains t = true :=
      List.elem_eq_true_of_mem hmem
    rw [h2] at hc
    simp at hc
  · rw [hta]
    apply List.Nodup.filter
    exact ((List.filter_sublist _).map Prod.fst).nodup (detect_fst_nodup e.content)

/-- C1 amended.  `detect_project_contexts` returns exactly the contexts
whose confidence (matched keywords plus matched patterns over the total
for that context) reaches 0.05, sorted by confidence in descending order;
`tag_entry`, `BackfillTagger.process_entry` and the simple backfill all
keep only contexts at confidence at least 0.1 for visible tags, but only
the simple backfill caps the list (at 3 tags); the other two callers
return every qualifying tag (see the counterexample with five tags). -/
theorem c1_detect_and_thresholds (text : List Char) (ctx : ProjectContext)
    (hctx : ctx ∈ ContextTagger.project_contexts)
    (hconf : ratDiv 1 20 ≤ ContextTagger.context_confidence ctx text) :
    ((ctx.tag, ContextTagger.context_confidence ctx text)
        ∈ ContextTagger.detect_project_contexts text)
      ∧ (∀ p ∈ ContextTagger.detect_project_contexts text,
          ratDiv 1 20 ≤ p.2 ∧ ∃ c ∈ ContextTagger.project_contexts,
            p = (c.tag, ContextTagger.context_confidence c text))
      ∧ (ContextTagger.detect_project_contexts text).Pairwise (fun a b => b.2 ≤ a.2)
      ∧ (ContextTagger.tag_entry text).tags
          = ((ContextTagger.detect_project_contexts text).filter
              (fun p => decide (ratDiv 1 10 ≤ p.2))).map Prod.fst
      ∧ (∀ e : BEntry, (BackfillTagger.process_entry e).tags
          = ((ContextTagger.detect_project_contexts e.content).filter
              (fun p => decide (ratDiv 1 10 ≤ p.2))).map Prod.fst)
      ∧ (∀ t2 : List Char,
          SimpleContextTagger.process_claude_memory_tags t2
            = ((((SimpleContextTagger.detect_contexts t2).filter
                (fun p => decide (ratDiv 1 10 ≤ p.2))).map Prod.fst).take 3)
          ∧ (SimpleContextTagger.process_claude_memory_tags t2).length ≤ 3) := by
  refine ⟨?_, ?_, ?_, rfl, fun e => rfl, fun t2 => ⟨rfl, List.length_take_le _ _⟩⟩
  · have h0 : 0 < ContextTagger.context_confidence ctx text :=
      lt_of_lt_of_le (by decide) hconf
    have hmem1 : (ctx.tag, ContextTagger.context_confidence ctx text)
        ∈ ContextTagger.context_scores text := by
      unfold ContextTagger.context_scores
      rw [List.mem_filterMap]
      exact ⟨ctx, hctx, by simp [h0]⟩
    have hmem2 := (List.perm_insertionSort
      (fun a b : String × ℚ => b.2 ≤ a.2) _).mem_iff.mpr hmem1
    unfold ContextTagger.detect_project_contexts
    rw [List.mem_filter]
    exact ⟨hmem2, by simpa using hconf⟩
  · intro p hp
    unfold ContextTagger.detect_project_contexts at hp
    rw [List.mem_filter] at hp
    refine ⟨by simpa using hp.2, ?_⟩
    have hp2 := (List.perm_insertionSort
      (fun a b : String × ℚ => b.2 ≤ a.2) _).mem_iff.mp hp.1
    unfold ContextTagger.context_scores at hp2
    rw [List.mem_filterMap] at hp2
    obtain ⟨c, hc, hfc⟩ := hp2
    refine ⟨c, hc, ?_⟩
    by_cases h0 : 0 < ContextTagger.context_confidence c text
    · simp [h0] at hfc
      simp [← hfc]
    · simp [h0] at hfc
  · haveI h1 : IsTotal (String × ℚ) (fun a b => b.2 ≤ a.2) := ⟨fun a b => le_total b.2 a.2⟩
    haveI h2 : IsTrans (String × ℚ) (fun a b => b.2 ≤ a.2) :=
      ⟨fun a b c hab hbc => le_trans hbc hab⟩
    have hs := List.sorted_insertionSort (fun a b : String × ℚ => b.2 ≤ a.2)
      (ContextTagger.context_scores text)
    unfold ContextTagger.detect_project_contexts
    exact hs.sublist (List.filter_sublist _)

/-- Witness for C1: on the input `docker` the Infrastructure context
(matching the `docker` keyword and the `docker` pattern, confidence 2/26)
reaches the 0.05 threshold and is reported by `detect_project_contexts`. -/
theorem c1_witness :
    ((ContextTagger.project_contexts.get ⟨4, by decide⟩).tag,
        ContextTagger.context_confidence
          (ContextTagger.project_contexts.get ⟨4, by decide⟩) "docker".data)
      ∈ ContextTagger.detect_project_contexts "docker".data :=
  (c1_detect_and_thresholds "docker".data
    (ContextTagger.project_contexts.get ⟨4, by decide⟩)
    (List.get_mem _ _ _) (by decide)).1

/-- An entry emitted by `flushNew` passed the cache filter. -/
theorem flushNew_not_cached (hashF : List Char → String) (keys : List String)
    (cur : Option LogEntry) (e : LogEntry) (he : e ∈ flushNew hashF keys cur) :
    hashF e.raw ∉ keys := by
  cases cur with
  | none => simp [flushNew] at he
  | some e0 =>
    simp [flushNew] at he
    rcases he with ⟨hnotin, heq⟩
    subst heq
    exact hnotin

/-- Every entry returned by the `parse_new_entries` scanning loop has a
raw-text hash that is not among the cache keys. -/
theorem parse_entries_go_not_cached (upd : Option String → List Char → Option String)
    (hashF : List Char → String) (keys : List String) :
    ∀ (ls : List (List Char)) (cur : Option LogEntry) (e : LogEntry),
      e ∈ parse_entries_go upd hashF keys cur ls → hashF e.raw ∉ keys := by
  intro ls
  induction ls with
  | nil => exact fun cur e he => flushNew_not_cached hashF keys cur e he
  | cons line rest ih =>
    intro cur e he
    simp only [parse_entries_go] at he
    split at he
    · rw [List.mem_append] at he
      rcases he with he1 | he2
      · exact flushNew_not_cached hashF keys cur e he1
      · exact ih _ e he2
    · split at he
      · split at he
        · exact ih _ e he
        · exact ih _ e he
      · exact ih none e he

/-- The entries the `process_new_entries` loop issues LLM calls for are
among the new entries it was given. -/
theorem process_loop_calls_subset {σ : Type} (llm : LogEntry → Except String σ)
    (hashF : List Char → String) :
    ∀ (news : List LogEntry) (cache : List (String × σ)) (e : LogEntry),
      e ∈ (IncrementalProcessorHttp.process_loop llm hashF cache news).2.1 → e ∈ news := by
  intro news
  induction news with
  | nil => intro cache e he; simp [IncrementalProcessorHttp.process_loop] at he
  | cons e0 rest ih =>
    intro cache e he
    simp only [IncrementalProcessorHttp.process_loop] at he
    cases hl : llm e0 with
    | ok s =>
      rw [hl] at he
      simp only [List.mem_cons] at he ⊢
      rcases he with he1 | he2
      · exact Or.inl he1
      · exact Or.inr (ih _ e he2)
    | error m =>
      rw [hl] at he
      simp at he
      simp [he]

/-- C4.  An entry whose content hash is already a key of the cache's
entries map is not returned by `parse_new_entries` (either variant) and
never triggers an LLM call in `process_new_entries`; only entries whose
hash is absent — i.e. whose content changed — are processed.  The SHA-256
digest is abstracted as `hashF`, so this holds for every hash function. -/
theorem c4_cached_entry_not_reprocessed {σ : Type} (hashF : List Char → String)
    (llm : LogEntry → Except String σ) (cache : List (String × σ))
    (content : List Char) (e : LogEntry)
    (he : e ∈ IncrementalProcessorHttp.parse_new_entries hashF (cache.map Prod.fst) content
      ∨ e ∈ IncrementalProcessorLib.parse_new_entries hashF (cache.map Prod.fst) content
      ∨ e ∈ (IncrementalProcessorHttp.process_new_entries llm hashF cache content).calls) :
    hashF e.raw ∉ cache.map Prod.fst := by
  rcases he with h | h | h
  · exact parse_entries_go_not_cached updProjectHttp hashF (cache.map Prod.fst) _ none e h
  · exact parse_entries_go_not_cached updProjectLib hashF (cache.map Prod.fst) _ none e h
  · have hp : e ∈ IncrementalProcessorHttp.parse_new_entries hashF (cache.map Prod.fst)
        content := by
      simp only [IncrementalProcessorHttp.process_new_entries] at h
      split at h
      · simp at h
      · split at h
        · exact process_loop_calls_subset llm hashF _ cache e h
        · exact process_loop_calls_subset llm hashF _ cache e h
    exact parse_entries_go_not_cached updProjectHttp hashF (cache.map Prod.fst) _ none e hp

/-- Witness for C4: with a one-key cache and a hash function avoiding that
key, the single entry of the document is reported as new and its hash is
not a cache key. -/
theorem c4_witness : ("k" : String) ∉ (["other"] : List String) :=
  c4_cached_entry_not_reprocessed (fun _ => "k") (fun _ => Except.ok ())
    [("other", ())] "## 2025-01-01\nhello".data
    { timestamp := "2025-01-01".data
    , raw := "## 2025-01-01\nhello".data
    , content := "hello ".data
    , project := none }
    (Or.inl (by decide))

/-- C9.  If processing any new entry fails, `process_new_entries` re-raises
before `save_cache` is ever called: the persisted cache file is unchanged
by the run — including for entries earlier in the same run that were
summarized successfully — so the same entries are parsed as new again on
the next run. -/
theorem c9_failed_run_leaves_cache_unchanged {σ : Type}
    (llm : LogEntry → Except String σ) (hashF : List Char → String)
    (cache : List (String × σ)) (content : List Char) (msg : String)
    (h : (IncrementalProcessorHttp.process_new_entries llm hashF cache content).failed
      = some msg) :
    (IncrementalProcessorHttp.process_new_entries llm hashF cache content).savedCache = none
      ∧ IncrementalProcessorHttp.persistedAfter cache
          (IncrementalProcessorHttp.process_new_entries llm hashF cache content) = cache
      ∧ IncrementalProcessorHttp.parse_new_entries hashF
          ((IncrementalProcessorHttp.persistedAfter cache
            (IncrementalProcessorHttp.process_new_entries llm hashF cache content)).map
              Prod.fst) content
        = IncrementalProcessorHttp.parse_new_entries hashF (cache.map Prod.fst) content := by
  have hsaved : (IncrementalProcessorHttp.process_new_entries llm hashF
      cache content).savedCache = none := by
    simp only [IncrementalProcessorHttp.process_new_entries]
    split
    · rfl
    · split
      · rfl
      · exfalso
        simp only [IncrementalProcessorHttp.process_new_entries] at h
        split at h
        · simp at h
        · split at h
          · next heq =>
            rename_i heq2
            simp_all
          · simp at h
  have hpersist : IncrementalProcessorHttp.persistedAfter cache
      (IncrementalProcessorHttp.process_new_entries llm hashF cache content) = cache := by
    unfold IncrementalProcessorHttp.persistedAfter
    rw [hsaved]
  exact ⟨hsaved, hpersist, by rw [hpersist]⟩

/-- Witness for C9: a run whose only entry fails leaves `save_cache`
uncalled. -/
theorem c9_witness :
    (IncrementalProcessorHttp.process_new_entries (fun _ => Except.error "boom")
        (fun _ => "k") ([] : List (String × Unit)) "## 2025-01-01\nhello".data).savedCache
      = none :=
  (c9_failed_run_leaves_cache_unchanged (fun _ => Except.error "boom") (fun _ => "k")
    ([] : List (String × Unit)) "## 2025-01-01\nhello".data "boom" (by decide)).1

/-- Invariant of the retry loop, by induction on the remaining iterations:
starting at attempt `a` (with `a` sleeps of 1, 2, … already performed and
the delay at `2 ^ a`), the loop performs at least one more and at most 3
attempts in total, its sleeps double starting from 1, every attempt that
was followed by another one failed retryably, a non-retryable error ends
the loop at once with an error result, and a retryable failure before the
last allowed attempt is in fact retried. -/
theorem requestGo_spec (oracle : Nat → IncrementalProcessorHttp.NetResult) :
    ∀ (r a : Nat), r + a = 3 → a ≤ 2 →
      ∀ (sleeps : List Nat), sleeps = (List.range a).map (fun j => 2 ^ j) →
        a < (IncrementalProcessorHttp.requestGo oracle r a (2 ^ a) sleeps).attempts
        ∧ (IncrementalProcessorHttp.requestGo oracle r a (2 ^ a) sleeps).attempts ≤ 3
        ∧ (IncrementalProcessorHttp.requestGo oracle r a (2 ^ a) sleeps).sleeps
            = (List.range
                ((IncrementalProcessorHttp.requestGo oracle r a (2 ^ a) sleeps).attempts - 1)).map
                (fun j => 2 ^ j)
        ∧ (∀ i, a ≤ i →
            i + 1 < (IncrementalProcessorHttp.requestGo oracle r a (2 ^ a) sleeps).attempts →
            IncrementalProcessorHttp.retryable (oracle i) = true)
        ∧ (∀ i, a ≤ i →
            i < (IncrementalProcessorHttp.requestGo oracle r a (2 ^ a) sleeps).attempts →
            IncrementalProcessorHttp.nonRetryableErr (oracle i) = true →
            (∃ m, (IncrementalProcessorHttp.requestGo oracle r a (2 ^ a) sleeps).result
                = Except.error m)
              ∧ (IncrementalProcessorHttp.requestGo oracle r a (2 ^ a) sleeps).attempts = i + 1)
        ∧ (∀ i, a ≤ i →
            i < (IncrementalProcessorHttp.requestGo oracle r a (2 ^ a) sleeps).attempts →
            i < 2 → IncrementalProcessorHttp.retryable (oracle i) = true →
            i + 1 < (IncrementalProcessorHttp.requestGo oracle r a (2 ^ a) sleeps).attempts) := by
  intro r
  induction r with
  | zero =>
    intro a h3 h2 sleeps hs
    exfalso
    omega
  | succ r ih =>
    intro a h3 h2 sleeps hs
    cases ho : oracle a with
    | success body =>
      simp only [IncrementalProcessorHttp.requestGo, ho]
      refine ⟨Nat.lt_succ_self a, (by omega : a + 1 ≤ 3),
        (by simpa using hs : sleeps = (List.range (a + 1 - 1)).map fun j => 2 ^ j),
        ?_, ?_, ?_⟩
      · intro i hai hlt
        have hlt2 : i + 1 < a + 1 := hlt
        exact absurd hlt2 (by omega)
      · intro i hai hlt hnr
        have hlt2 : i < a + 1 := hlt
        have hia : i = a := by omega
        subst hia
        rw [ho] at hnr
        simp [IncrementalProcessorHttp.nonRetryableErr] at hnr
      · intro i hai hlt h2i hr
        have hlt2 : i < a + 1 := hlt
        have hia : i = a := by omega
        subst hia
        rw [ho] at hr
        simp [IncrementalProcessorHttp.retryable] at hr
    | httpError code body =>
      simp only [IncrementalProcessorHttp.requestGo, ho]
      by_cases hcond : code = 429 ∧ a < 2
      · rw [if_pos hcond]
        have hdelay : (2 : ℕ) ^ a * 2 = 2 ^ (a + 1) := (pow_succ 2 a).symm
        have hsleeps : sleeps ++ [2 ^ a] = (List.range (a + 1)).map (fun j => 2 ^ j) := by
          rw [hs, List.range_succ, List.map_append]
          rfl
        rw [hdelay, hsleeps]
        obtain ⟨ih1, ih2, ih3, ih4, ih5, ih6⟩ := ih (a + 1) (by omega) (by omega)
          ((List.range (a + 1)).map (fun j => 2 ^ j)) rfl
        refine ⟨by omega, ih2, ih3, ?_, ?_, ?_⟩
        · intro i hai hlt
          rcases Nat.eq_or_lt_of_le hai with heq | hgt
          · subst heq
            rw [ho]
            simp [IncrementalProcessorHttp.retryable, hcond.1]
          · exact ih4 i (by omega) hlt
        · intro i hai hlt hnr
          rcases Nat.eq_or_lt_of_le hai with heq | hgt
          · subst heq
            rw [ho] at hnr
            simp [IncrementalProcessorHttp.nonRetryableErr, hcond.1] at hnr
          · exact ih5 i (by omega) hlt hnr
        · intro i hai hlt h2i hr
          rcases Nat.eq_or_lt_of_le hai with heq | hgt
          · subst heq
            exact ih1
          · exact ih6 i (by omega) hlt h2i hr
      · rw [if_neg hcond]
        refine ⟨Nat.lt_succ_self a, (by omega : a + 1 ≤ 3),
          (by simpa using hs : sleeps = (List.range (a + 1 - 1)).map fun j => 2 ^ j),
          ?_, ?_, ?_⟩
        · intro i hai hlt
          have hlt2 : i + 1 < a + 1 := hlt
          exact absurd hlt2 (by omega)
        · intro i hai hlt hnr
          have hlt2 : i < a + 1 := hlt
          have hia : i = a := by omega
          subst hia
          exact ⟨⟨_, rfl⟩, rfl⟩
        · intro i hai hlt h2i hr
          have hlt2 : i < a + 1 := hlt
          have hia : i = a := by omega
          subst hia
          rw [ho] at hr
          simp [IncrementalProcessorHttp.retryable] at hr
          exact absurd ⟨hr, h2i⟩ hcond
    | urlError msg2 =>
      simp only [IncrementalProcessorHttp.requestGo, ho]
      by_cases hcond : a < 2
      · rw [if_pos hcond]
        have hdelay : (2 : ℕ) ^ a * 2 = 2 ^ (a + 1) := (pow_succ 2 a).symm
        have hsleeps : sleeps ++ [2 ^ a] = (List.range (a + 1)).map (fun j => 2 ^ j) := by
          rw [hs, List.range_succ, List.map_append]
          rfl
        rw [hdelay, hsleeps]
        obtain ⟨ih1, ih2, ih3, ih4, ih5, ih6⟩ := ih (a + 1) (by omega) (by omega)
          ((List.range (a + 1)).map (fun j => 2 ^ j)) rfl
        refine ⟨by omega, ih2, ih3, ?_, ?_, ?_⟩
        · intro i hai hlt
          rcases Nat.eq_or_lt_of_le hai with heq | hgt
          · subst heq
            rw [ho]
            simp [IncrementalProcessorHttp.retryable]
          · exact ih4 i (by omega) hlt
        · intro i hai hlt hnr
          rcases Nat.eq_or_lt_of_le hai with heq | hgt
          · subst heq
            rw [ho] at hnr
            simp [IncrementalProcessorHttp.nonRetryableErr] at hnr
          · exact ih5 i (by omega) hlt hnr
        · intro i hai hlt h2i hr
          rcases Nat.eq_or_lt_of_le hai with heq | hgt
          · subst heq
            exact ih1
          · exact ih6 i (by omega) hlt h2i hr
      · rw [if_neg hcond]
        refine ⟨Nat.lt_succ_self a, (by omega : a + 1 ≤ 3),
          (by simpa using hs : sleeps = (List.range (a + 1 - 1)).map fun j => 2 ^ j),
          ?_, ?_, ?_⟩
        · intro i hai hlt
          have hlt2 : i + 1 < a + 1 := hlt
          exact absurd hlt2 (by omega)
        · intro i hai hlt hnr
          have hlt2 : i < a + 1 := hlt
          have hia : i = a := by omega
          subst hia
          rw [ho] at hnr
          simp [IncrementalProcessorHttp.nonRetryableErr] at hnr
        · intro i hai hlt h2i hr
          have hlt2 : i < a + 1 := hlt
          have hia : i = a := by omega
          subst hia
          exact absurd h2i hcond
    | otherError msg2 =>
      simp only [IncrementalProcessorHttp.requestGo, ho]
      refine ⟨Nat.lt_succ_self a, (by omega : a + 1 ≤ 3),
        (by simpa using hs : sleeps = (List.range (a + 1 - 1)).map fun j => 2 ^ j),
        ?_, ?_, ?_⟩
      · intro i hai hlt
        have hlt2 : i + 1 < a + 1 := hlt
        exact absurd hlt2 (by omega)
      · intro i hai hlt hnr
        have hlt2 : i < a + 1 := hlt
        have hia : i = a := by omega
        subst hia
        exact ⟨⟨_, rfl⟩, rfl⟩
      · intro i hai hlt h2i hr
        have hlt2 : i < a + 1 := hlt
        have hia : i = a := by omega
        subst hia
        rw [ho] at hr
        simp [IncrementalProcessorHttp.retryable] at hr

/-- C5.  `make_openai_request` performs at most 3 attempts; the delays
slept between attempts double exponentially starting at 1 second; an
attempt is followed by another one only when it failed with a connection
error or HTTP 429; any non-retryable error (an HTTP error other than 429,
or any other exception, including JSON-level failures while reading the
response) ends the loop immediately with an error that propagates to the
caller; and a retryable failure before the last allowed attempt is
retried. -/
theorem c5_retry_policy (oracle : Nat → IncrementalProcessorHttp.NetResult) (i : Nat) :
    (IncrementalProcessorHttp.make_openai_request oracle).attempts ≤ 3
    ∧ (IncrementalProcessorHttp.make_openai_request oracle).sleeps
        = (List.range ((IncrementalProcessorHttp.make_openai_request oracle).attempts - 1)).map
            (fun j => 2 ^ j)
    ∧ (i + 1 < (IncrementalProcessorHttp.make_openai_request oracle).attempts →
        IncrementalProcessorHttp.retryable (oracle i) = true)
    ∧ (i < (IncrementalProcessorHttp.make_openai_request oracle).attempts →
        IncrementalProcessorHttp.nonRetryableErr (oracle i) = true →
        (∃ m, (IncrementalProcessorHttp.make_openai_request oracle).result = Except.error m)
          ∧ (IncrementalProcessorHttp.make_openai_request oracle).attempts = i + 1)
    ∧ (i < (IncrementalProcessorHttp.make_openai_request oracle).attempts → i < 2 →
        IncrementalProcessorHttp.retryable (oracle i) = true →
        i + 1 < (IncrementalProcessorHttp.make_openai_request oracle).attempts) := by
  have H := requestGo_spec oracle 3 0 rfl (by omega) [] rfl
  have hmk : IncrementalProcessorHttp.make_openai_request oracle
      = IncrementalProcessorHttp.requestGo oracle 3 0 (2 ^ 0) [] := rfl
  rw [hmk]
  obtain ⟨_, h2, h3, h4, h5, h6⟩ := H
  exact ⟨h2, h3, fun hlt => h4 i (Nat.zero_le i) hlt,
    fun hlt hnr => h5 i (Nat.zero_le i) hlt hnr,
    fun hlt h2i hr => h6 i (Nat.zero_le i) hlt h2i hr⟩

/-- Witness for C5, at an oracle that always raises a connection error:
the request gives up after exactly 3 attempts. -/
theorem c5_witness :
    (IncrementalProcessorHttp.make_openai_request
      (fun _ => IncrementalProcessorHttp.NetResult.urlError "refused")).attempts ≤ 3 :=
  (c5_retry_policy (fun _ => IncrementalProcessorHttp.NetResult.urlError "refused") 0).1

/-- Witness for C2 at a concrete three-line document with leading content
and two heading lines. -/
theorem c2_witness :
    (ContextTagger.split_into_entries "x\n## 2025-01-01 a\nbody".data).length
        = (splitNl "x\n## 2025-01-01 a\nbody".data).countP
            (fun l => (matchHeader l).isSome)
          + (if ((splitNl "x\n## 2025-01-01 a\nbody".data).takeWhile
                fun l => (matchHeader l).isNone).all (fun l => l.all isPySpace)
             then 0 else 1)
      ∧ (BackfillTagger.split_into_entries "x\n## 2025-01-01 a\nbody".data).length
        = (splitNl "x\n## 2025-01-01 a\nbody".data).countP
            (fun l => (matchHeader l).isSome)
          + (if ((splitNl "x\n## 2025-01-01 a\nbody".data).takeWhile
                fun l => (matchHeader l).isNone).all (fun l => l.all isPySpace)
             then 0 else 1) :=
  c2_split_entry_count "x\n## 2025-01-01 a\nbody".data

/-- Witness for C3 at a concrete entry whose header already carries a tag. -/
theorem c3_witness :
    (BackfillTagger.process_entry
      { timestamp := none
      , header_line := "## 2025-01-01 t [VectorBT]".data
      , content := "## 2025-01-01 t [VectorBT]\nvectorbt backtesting portfolio".data
      , original_content := "## 2025-01-01 t [VectorBT]\nvectorbt backtesting portfolio".data
      }).tags_added.Nodup :=
  (c3_no_duplicate_tags _).2
